import Mathlib

/-!
# Verification of the worldbook plugin (`main.py`)

Shallow embedding of the worldbook plugin: a `WorldbookManager` that loads
JSON record files into an in-memory store and searches arbitrary text for
keyword-substring matches, and a plugin layer that stages matched records
per session (`on_any_message`) and injects them, sorted by content length,
into the system prompt of the next generation request
(`inject_worldbook_context`).

Python values parsed from JSON are modelled by the inductive `Json`
(numbers as integers; the claims never exercise non-integer numbers).
Python operations that can raise (`TypeError` on `x in text` for a
non-string `x`, `AttributeError` on `.get` of a non-dict, `len` of a
non-sized value, iteration of a non-iterable) are modelled in
`Except Unit`; `.error ()` stands for an uncaught Python exception.
Python `dict`s are modelled as association lists in insertion order,
mirroring the guaranteed iteration order of Python dictionaries, and
`list.sort(key=..., reverse=True)` is modelled by a stable insertion
sort on (key, value) pairs with keys computed once per element, which is
the observable behaviour CPython documents for `list.sort`.
-/

/-- A parsed JSON value (the result of `json.load`).  Numbers are modelled
as integers. -/
inductive Json where
  | null
  | bool (b : Bool)
  | num (n : Int)
  | str (s : String)
  | arr (elems : List Json)
  | obj (fields : List (String × Json))

/-- `lookup` on a Python dict modelled as an association list: the value of
the first binding of key `k`, if any.  Parsed JSON objects have unique
keys, so "first" is unambiguous. -/
def jlookup (kvs : List (String × Json)) (k : String) : Option Json :=
  (kvs.find? (fun p => p.1 == k)).map (fun p => p.2)

/-- Python dict read `m[k]` / `m.get(k)` on the session maps. -/
def mapGet {α : Type} (m : List (String × α)) (k : String) : Option α :=
  (m.find? (fun p => p.1 == k)).map (fun p => p.2)

/-- Python dict write `m[k] = v`: replaces the binding in place when the
key is present (dicts keep the original position) and appends otherwise. -/
def mapSet {α : Type} (m : List (String × α)) (k : String) (v : α) :
    List (String × α) :=
  if m.any (fun p => p.1 == k) then
    m.map (fun p => if p.1 == k then (k, v) else p)
  else
    m ++ [(k, v)]

/-- Python dict deletion `del m[k]` (no-op when the key is absent, used
where the source guards the deletion with `k in m`). -/
def mapDel {α : Type} (m : List (String × α)) (k : String) :
    List (String × α) :=
  m.filter (fun p => !(p.1 == k))

/-- `isPrefixOfB a b`: the char list `a` is a prefix of `b`. -/
def isPrefixOfB : List Char → List Char → Bool
  | [], _ => true
  | _ :: _, [] => false
  | a :: as, b :: bs => a == b && isPrefixOfB as bs

/-- `containsSub kw l`: the char list `kw` occurs contiguously inside `l`. -/
def containsSub (kw : List Char) : List Char → Bool
  | [] => isPrefixOfB kw []
  | b :: bs => isPrefixOfB kw (b :: bs) || containsSub kw bs

/-- Python's substring operator `kw in text` on two `str` values. -/
def strIn (kw text : String) : Bool :=
  containsSub kw.data text.data

/-- Python `v.get(k, d)`: raises `AttributeError` unless `v` is a dict. -/
def pyGetD (v : Json) (k : String) (d : Json) : Except Unit Json :=
  match v with
  | .obj kvs => .ok ((jlookup kvs k).getD d)
  | _ => .error ()

/-- Python iteration `for x in v`: a list yields its elements, a string
its characters (as one-character strings), a dict its keys; any other
JSON value is not iterable (`TypeError`). -/
def pyIter (v : Json) : Except Unit (List Json) :=
  match v with
  | .arr xs => .ok xs
  | .str s => .ok (s.data.map (fun c => Json.str (String.singleton c)))
  | .obj kvs => .ok (kvs.map (fun p => Json.str p.1))
  | _ => .error ()

/-- Python `kw in text` where `text` is a `str`: a `TypeError` unless `kw`
is itself a `str`. -/
def pyInStr (kw : Json) (text : String) : Except Unit Bool :=
  match kw with
  | .str s => .ok (strIn s text)
  | _ => .error ()

/-- Python `len(v)`: defined for strings (character count), lists and
dicts; a `TypeError` on other JSON values. -/
def pyLen (v : Json) : Except Unit Nat :=
  match v with
  | .str s => .ok s.length
  | .arr xs => .ok xs.length
  | .obj kvs => .ok kvs.length
  | _ => .error ()

mutual

/-- Python `repr` of a JSON value (string escaping inside nested reprs is
not modelled; the claims never exercise it). -/
def pyRepr : Json → String
  | .null => "None"
  | .bool true => "True"
  | .bool false => "False"
  | .num n => toString n
  | .str s => "\x27" ++ s ++ "\x27"
  | .arr xs => "[" ++ pyReprList xs ++ "]"
  | .obj kvs => "\x7b" ++ pyReprPairs kvs ++ "\x7d"

/-- Comma-separated reprs of the elements of a Python list. -/
def pyReprList : List Json → String
  | [] => ""
  | [x] => pyRepr x
  | x :: y :: rest => pyRepr x ++ ", " ++ pyReprList (y :: rest)

/-- Comma-separated `key: value` reprs of the entries of a Python dict. -/
def pyReprPairs : List (String × Json) → String
  | [] => ""
  | [(k, v)] => "\x27" ++ k ++ "\x27: " ++ pyRepr v
  | (k, v) :: y :: rest =>
      "\x27" ++ k ++ "\x27: " ++ pyRepr v ++ ", " ++ pyReprPairs (y :: rest)

end

/-- Python `str(v)` / f-string interpolation of a JSON value. -/
def pyStr (v : Json) : String :=
  match v with
  | .str s => s
  | v => pyRepr v

/-! ## `WorldbookManager` (the Knowledge Store) -/

/-- The knowledge store `worldbook_data`: file stem → parsed record, in
insertion order. -/
abbrev Store := List (String × Json)

/-- `find_entries_in_text`, inner loop over one record's keywords
(lines 50–53): `for keyword in ...: if keyword in text: append; break`.
Returns whether some keyword matched; a `TypeError` from a non-string
keyword reached before any match propagates. -/
def scanKeywords (text : String) : List Json → Except Unit Bool
  | [] => .ok false
  | k :: ks => do
      let b ← pyInStr k text
      if b then .ok true else scanKeywords text ks

/-- The keyword list the source iterates for one record:
`entry_data.get("keywords", [])`, then Python iteration over the result. -/
def keywordList (e : Json) : Except Unit (List Json) := do
  let kv ← pyGetD e "keywords" (.arr [])
  pyIter kv

/-- Whether one record matches `text`: the combined effect of lines 50–53
for a single `entry_data`. -/
def entryMatch (text : String) (e : Json) : Except Unit Bool := do
  let ks ← keywordList e
  scanKeywords text ks

/-- `find_entries_in_text`, outer loop over `worldbook_data.items()`
(lines 49–53), accumulating `found_entries` in store order. -/
def findAux (text : String) : Store → Except Unit (List Json)
  | [] => .ok []
  | (_, e) :: rest => do
      let b ← entryMatch text e
      let tail ← findAux text rest
      .ok (if b then e :: tail else tail)

/-- `WorldbookManager.find_entries_in_text` (lines 44–54): the empty-text
guard `if not text: return found_entries`, then the scan. -/
def find_entries_in_text (store : Store) (text : String) :
    Except Unit (List Json) :=
  if text = "" then .ok [] else findAux text store

/-! ## Loading (`_load_worldbook`, lines 26–42)

The file system is modelled as a flag for the existence of the data
directory together with the record files under it (stem and parse
outcome); `Path.rglob` over an absent directory yields nothing. -/

/-- The data directory and the files under it.  Each file carries its stem
and the outcome of `json.load` (`.error` for malformed or unreadable). -/
structure FileSys where
  dirExists : Bool
  files : List (String × Except Unit Json)

/-- The files `Path.rglob` discovers: none when the directory is absent. -/
def availableFiles (fs : FileSys) : List (String × Except Unit Json) :=
  if fs.dirExists then fs.files else []

/-- Python `k in v` used by the validation on line 35.  Key membership on
a dict, element equality on a list (a string equals only an equal
string), substring on a string; a `TypeError` otherwise. -/
def pyHasMember (v : Json) (k : String) : Except Unit Bool :=
  match v with
  | .obj kvs => .ok (kvs.any (fun p => p.1 == k))
  | .arr xs => .ok (xs.any (fun x => match x with
      | .str s => s == k
      | _ => false))
  | .str s => .ok (strIn k s)
  | _ => .error ()

/-- Line 35: `"keywords" in entry and "content" in entry and
"pet_name" in entry`, with Python short-circuit evaluation. -/
def recordAccepted (v : Json) : Except Unit Bool := do
  let a ← pyHasMember v "keywords"
  if !a then .ok false else do
    let b ← pyHasMember v "content"
    if !b then .ok false else
      pyHasMember v "pet_name"

/-- One iteration of the load loop (lines 30–41): parse failures and any
exception inside the `try` are caught and the file skipped; an accepted
record is written to the store under the file stem. -/
def loadStep (store : Store) (file : String × Except Unit Json) : Store :=
  match file.2 with
  | .error _ => store
  | .ok v =>
      match recordAccepted v with
      | .error _ => store
      | .ok true => mapSet store file.1 v
      | .ok false => store

/-- `WorldbookManager._load_worldbook` (lines 26–42): reset the store and
fold the load step over the discovered files. -/
def load_worldbook (fs : FileSys) : Store :=
  (availableFiles fs).foldl loadStep []

/-- `WorldbookManager.__init__` (lines 21–24): `mkdir(parents=True,
exist_ok=True)` on the data path, then the initial load.  Returns the
file system as the constructor leaves it and the loaded store. -/
def mkWorldbookManager (fs : FileSys) : FileSys × Store :=
  let fs' : FileSys := { fs with dirExists := true }
  (fs', load_worldbook fs')

/-- The `重载世界书` command handler `reload_worldbook` (lines 132–139):
it only calls `_load_worldbook`; the file system is not touched. -/
def reload_worldbook_cmd (fs : FileSys) : FileSys × Store :=
  (fs, load_worldbook fs)

/-! ## The plugin (`WorldbookPlugin`) -/

/-- The plugin's mutable state: the manager's store and the per-session
staging map `lore_to_inject`. -/
structure PluginState where
  store : Store
  lore : List (String × List Json)

/-- `WorldbookPlugin.on_any_message` (lines 70–83): stage the matches for
the session when non-empty, otherwise drop any stale staged entry. -/
def on_any_message (st : PluginState) (sid text : String) :
    Except Unit PluginState := do
  let found ← find_entries_in_text st.store text
  if found.isEmpty then
    .ok { st with lore := mapDel st.lore sid }
  else
    .ok { st with lore := mapSet st.lore sid found }

/-- One staged record decorated with its sort key
`len(entry.get('content', ''))` (line 97); keys are computed once per
element, in list order, before the sort. -/
def contentLenKey (e : Json) : Except Unit Nat := do
  let c ← pyGetD e "content" (.str "")
  pyLen c

/-- Decorate each staged record with its sort key, propagating the first
exception raised by a key computation. -/
def decorate : List Json → Except Unit (List (Nat × Json))
  | [] => .ok []
  | e :: es => do
      let n ← contentLenKey e
      let rest ← decorate es
      .ok ((n, e) :: rest)

/-- Stable insertion of a decorated record into a list already sorted by
key, descending: the new element, which precedes the list elements in the
original order, goes before the first element of less or equal key. -/
def insertDesc (x : Nat × Json) : List (Nat × Json) → List (Nat × Json)
  | [] => [x]
  | y :: ys => if y.1 ≤ x.1 then x :: y :: ys else y :: insertDesc x ys

/-- Stable insertion sort, descending by key: the model of CPython's
stable `list.sort(key=..., reverse=True)` on decorated pairs. -/
def insertionSortDesc : List (Nat × Json) → List (Nat × Json)
  | [] => []
  | x :: xs => insertDesc x (insertionSortDesc xs)

/-- Line 97: `lore_to_add.sort(key=lambda entry:
len(entry.get('content', '')), reverse=True)`. -/
def sortLore (l : List Json) : Except Unit (List Json) := do
  let dec ← decorate l
  .ok ((insertionSortDesc dec).map (fun p => p.2))

/-- Lines 111–120: the one-line skill data built from a `skill_info`
dict.  `info.get('power')` yields `None` both when the key is absent and
when its value is JSON `null`, producing the `---` placeholder; the other
four sub-fields default to `?` only when absent. -/
def formatSkillInfo (info : List (String × Json)) : String :=
  let power :=
    match jlookup info "power" with
    | none => "威力: ---"
    | some .null => "威力: ---"
    | some v => "威力: " ++ pyStr v
  let pp := "PP: " ++ pyStr ((jlookup info "pp").getD (.str "?"))
  let priority := "先手等级: " ++ pyStr ((jlookup info "priority").getD (.str "?"))
  let ty := "属性: " ++ pyStr ((jlookup info "type").getD (.str "?"))
  let category := "类型: " ++ pyStr ((jlookup info "category").getD (.str "?"))
  "技能数据：" ++ power ++ " | " ++ pp ++ " | " ++ priority ++ " | " ++
    ty ++ " | " ++ category ++ "\n"

/-- Lines 102–124, one loop iteration: the section appended to
`lore_prompt` for one record.  `.get` requires a dict; a `skill_info`
value that is not a dict raises `AttributeError` at `info.get('power')`. -/
def formatEntry (e : Json) : Except Unit String :=
  match e with
  | .obj kvs => do
      let pet := pyStr ((jlookup kvs "pet_name").getD (.str "未知"))
      let skillPart ←
        match jlookup kvs "skill_info" with
        | none => Except.ok ""
        | some (.obj info) => Except.ok (formatSkillInfo info ++ "\n")
        | some _ => Except.error ()
      let content := pyStr ((jlookup kvs "content").getD (.str "无内容"))
      Except.ok ("--- 背景知识 ---\n" ++ "宠物：" ++ pet ++ "\n" ++
        skillPart ++ content ++ "\n" ++ "--- 背景知识结束 ---\n")
  | _ => .error ()

/-- The loop of lines 102–124: concatenate the per-record sections in
sorted order. -/
def renderEntries : List Json → Except Unit String
  | [] => .ok ""
  | e :: es => do
      let s ← formatEntry e
      let rest ← renderEntries es
      .ok (s ++ rest)

/-- The fixed instructional header of line 100. -/
def lorePromptHeader : String :=
  "[系统指令：请根据以下背景知识来理解和回复用户的提问。重要规则：一个宠物只能同时携带一种血脉效果和四个技能。]\n"

/-- The full `lore_prompt` assembled by lines 100–124 from the sorted
staged records. -/
def assemblePrompt (l : List Json) : Except Unit String := do
  let body ← renderEntries l
  .ok (lorePromptHeader ++ body)

/-- `WorldbookPlugin.inject_worldbook_context` (lines 86–129): when a
staged entry exists, sort it, assemble the prompt block, prepend it (with
a blank-line separator) to the request's `system_prompt`, and delete the
staged entry; otherwise leave state and request untouched. -/
def inject_worldbook_context (st : PluginState) (sid : String)
    (systemPrompt : String) : Except Unit (PluginState × String) :=
  match mapGet st.lore sid with
  | none => .ok (st, systemPrompt)
  | some loreToAdd => do
      let sorted ← sortLore loreToAdd
      let block ← assemblePrompt sorted
      .ok ({ st with lore := mapDel st.lore sid },
           block ++ "\n" ++ systemPrompt)

/-! ## Helper lemmas -/

@[simp] theorem exceptOk_bind {α β : Type} (a : α) (f : α → Except Unit β) :
    (Except.ok a >>= f) = f a := rfl

@[simp] theorem exceptError_bind {α β : Type} (f : α → Except Unit β) :
    ((Except.error () : Except Unit α) >>= f) = .error () := rfl

@[simp] theorem exceptPure_eq_ok {α : Type} (a : α) :
    (pure a : Except Unit α) = .ok a := rfl

theorem mapGet_mapDel_self {α : Type} (m : List (String × α)) (k : String) :
    mapGet (mapDel m k) k = none := by
  induction m with
  | nil => rfl
  | cons p m ih =>
      by_cases hpk : p.1 = k
      · simp only [mapDel, List.filter_cons, hpk, beq_self_eq_true,
          Bool.not_true]
        exact ih
      · have hpk' : (p.1 == k) = false := by simpa using hpk
        simp [mapDel, mapGet, List.filter_cons, hpk']


theorem mapGet_cons {α : Type} (p : String × α) (m : List (String × α))
    (k : String) :
    mapGet (p :: m) k = if p.1 == k then some p.2 else mapGet m k := by
  cases h : (p.1 == k) with
  | true => simp [mapGet, List.find?_cons, h]
  | false => simp [mapGet, List.find?_cons, h]

theorem mapDel_cons {α : Type} (p : String × α) (m : List (String × α))
    (k : String) :
    mapDel (p :: m) k = if p.1 == k then mapDel m k else p :: mapDel m k := by
  cases h : (p.1 == k) with
  | true => simp [mapDel, List.filter_cons, h]
  | false => simp [mapDel, List.filter_cons, h]

theorem mapGet_mapDel_ne {α : Type} (m : List (String × α)) (k k' : String)
    (h : k' ≠ k) : mapGet (mapDel m k) k' = mapGet m k' := by
  induction m with
  | nil => rfl
  | cons p m ih =>
      rw [mapDel_cons, mapGet_cons]
      cases hpk : (p.1 == k) with
      | true =>
          have hp1 : p.1 = k := by simpa using hpk
          have hne : (p.1 == k') = false := by
            rw [beq_eq_false_iff_ne, hp1]
            exact fun hc => h hc.symm
          rw [if_pos rfl, ih, hne]
          simp
      | false =>
          rw [if_neg (by simp), mapGet_cons, ih]

theorem mapGet_replaceList_self {α : Type} (m : List (String × α))
    (k : String) (v : α) (hany : m.any (fun p => p.1 == k) = true) :
    mapGet (m.map (fun p => if p.1 == k then (k, v) else p)) k = some v := by
  induction m with
  | nil => simp at hany
  | cons p m ih =>
      cases hpk : (p.1 == k) with
      | true =>
          simp only [List.map_cons, hpk, if_true, mapGet_cons]
          simp
      | false =>
          simp only [List.map_cons, hpk, Bool.false_eq_true, if_false,
            mapGet_cons]
          apply ih
          rw [List.any_cons, hpk, Bool.false_or] at hany
          exact hany

theorem mapGet_appendSingle_self {α : Type} (m : List (String × α))
    (k : String) (v : α) (hany : m.any (fun p => p.1 == k) = false) :
    mapGet (m ++ [(k, v)]) k = some v := by
  induction m with
  | nil => simp [mapGet_cons]
  | cons p m ih =>
      rw [List.any_cons] at hany
      have h1 : (p.1 == k) = false := by
        cases hx : (p.1 == k)
        · rfl
        · rw [hx, Bool.true_or] at hany
          exact absurd hany (by simp)
      have h2 : m.any (fun p => p.1 == k) = false := by
        rw [h1, Bool.false_or] at hany
        exact hany
      rw [List.cons_append, mapGet_cons, h1]
      simp only [Bool.false_eq_true, if_false]
      exact ih h2

theorem mapGet_replaceList_ne {α : Type} (m : List (String × α))
    (k k' : String) (v : α) (h : k' ≠ k) :
    mapGet (m.map (fun p => if p.1 == k then (k, v) else p)) k'
      = mapGet m k' := by
  induction m with
  | nil => rfl
  | cons p m ih =>
      cases hpk : (p.1 == k) with
      | true =>
          have hp1 : p.1 = k := by simpa using hpk
          have hne : (k == k') = false := by
            rw [beq_eq_false_iff_ne]
            exact fun hc => h hc.symm
          have hne' : (p.1 == k') = false := by
            rw [hp1]
            exact hne
          simp only [List.map_cons, hpk, if_true, mapGet_cons, hne, hne',
            Bool.false_eq_true, if_false]
          exact ih
      | false =>
          simp only [List.map_cons, hpk, Bool.false_eq_true, if_false,
            mapGet_cons]
          rw [ih]

theorem mapGet_appendSingle_ne {α : Type} (m : List (String × α))
    (k k' : String) (v : α) (h : k' ≠ k) :
    mapGet (m ++ [(k, v)]) k' = mapGet m k' := by
  induction m with
  | nil =>
      have hne : (k == k') = false := by
        rw [beq_eq_false_iff_ne]
        exact fun hc => h hc.symm
      simp [mapGet_cons, hne, mapGet]
  | cons p m ih =>
      rw [List.cons_append, mapGet_cons, mapGet_cons, ih]

theorem mapGet_mapSet_self {α : Type} (m : List (String × α)) (k : String)
    (v : α) : mapGet (mapSet m k v) k = some v := by
  unfold mapSet
  cases hany : m.any (fun p => p.1 == k) with
  | true =>
      rw [if_pos rfl]
      exact mapGet_replaceList_self m k v hany
  | false =>
      rw [if_neg (by simp)]
      exact mapGet_appendSingle_self m k v hany

theorem mapGet_mapSet_ne {α : Type} (m : List (String × α)) (k k' : String)
    (v : α) (h : k' ≠ k) : mapGet (mapSet m k v) k' = mapGet m k' := by
  unfold mapSet
  cases hany : m.any (fun p => p.1 == k) with
  | true =>
      rw [if_pos rfl]
      exact mapGet_replaceList_ne m k k' v h
  | false =>
      rw [if_neg (by simp)]
      exact mapGet_appendSingle_ne m k k' v h

theorem inject_none {st : PluginState} {sid sp : String}
    (h : mapGet st.lore sid = none) :
    inject_worldbook_context st sid sp = .ok (st, sp) := by
  unfold inject_worldbook_context
  rw [h]

theorem inject_some_eq (st : PluginState) (sid sp : String) (l : List Json)
    (hstage : mapGet st.lore sid = some l) :
    inject_worldbook_context st sid sp =
      (do
        let sorted ← sortLore l
        let block ← assemblePrompt sorted
        Except.ok ({ st with lore := mapDel st.lore sid },
          block ++ "\n" ++ sp)) := by
  unfold inject_worldbook_context
  rw [hstage]

theorem inject_some_elim {st : PluginState} {sid sp : String}
    {l : List Json} {st' : PluginState} {out : String}
    (hstage : mapGet st.lore sid = some l)
    (h : inject_worldbook_context st sid sp = .ok (st', out)) :
    ∃ sorted block, sortLore l = .ok sorted ∧
      assemblePrompt sorted = .ok block ∧
      st' = { st with lore := mapDel st.lore sid } ∧
      out = block ++ "\n" ++ sp := by
  rw [inject_some_eq st sid sp l hstage] at h
  cases hs : sortLore l with
  | error u =>
      cases u
      rw [hs] at h
      simp at h
  | ok sorted =>
      rw [hs] at h
      simp only [exceptOk_bind] at h
      cases hb : assemblePrompt sorted with
      | error u =>
          cases u
          rw [hb] at h
          simp at h
      | ok block =>
          rw [hb] at h
          simp only [exceptOk_bind, Except.ok.injEq, Prod.mk.injEq] at h
          exact ⟨sorted, block, rfl, hb, h.1.symm, h.2.symm⟩

theorem on_any_message_elim {st : PluginState} {sid text : String}
    {st' : PluginState} (h : on_any_message st sid text = .ok st') :
    ∃ found, find_entries_in_text st.store text = .ok found ∧
      st' = { st with lore :=
        (if found.isEmpty then mapDel st.lore sid
         else mapSet st.lore sid found) } := by
  unfold on_any_message at h
  cases hf : find_entries_in_text st.store text with
  | error u =>
      cases u
      rw [hf] at h
      simp at h
  | ok found =>
      rw [hf] at h
      simp only [exceptOk_bind] at h
      refine ⟨found, rfl, ?_⟩
      cases hE : found.isEmpty with
      | true =>
          rw [hE] at h
          simp only [if_true] at h
          simp only [Except.ok.injEq] at h
          rw [← h]
          simp
      | false =>
          rw [hE] at h
          simp only [Bool.false_eq_true, if_false] at h
          simp only [Except.ok.injEq] at h
          rw [← h]
          simp

theorem on_any_message_store {st : PluginState} {sid text : String}
    {st' : PluginState} (h : on_any_message st sid text = .ok st') :
    st'.store = st.store := by
  rcases on_any_message_elim h with ⟨found, -, rfl⟩
  rfl

/-- C1: injection is exactly-once per staged batch.  After any successful
`inject_worldbook_context` call for a session, the staged entry for that
session is gone, and a second immediate call for the same session (no
intervening message) is a no-op returning the state and the request's
system prompt unchanged. -/
theorem claim_C1_injection_exactly_once (st st' : PluginState)
    (sid sp1 sp2 out1 : String)
    (h : inject_worldbook_context st sid sp1 = .ok (st', out1)) :
    mapGet st'.lore sid = none ∧
    inject_worldbook_context st' sid sp2 = .ok (st', sp2) := by
  have hnone : mapGet st'.lore sid = none := by
    cases hstage : mapGet st.lore sid with
    | none =>
        rw [inject_none hstage] at h
        simp only [Except.ok.injEq, Prod.mk.injEq] at h
        rw [← h.1]
        exact hstage
    | some l =>
        rcases inject_some_elim hstage h with ⟨sorted, block, -, -, rfl, -⟩
        exact mapGet_mapDel_self st.lore sid
  exact ⟨hnone, inject_none hnone⟩

/-- C4: staging is last-write-wins.  For a fixed session, after two
consecutive `on_any_message` calls whose texts both produce non-empty
match lists, the staged entry equals the match list of the second text
computed against the (unchanged) store, independent of the first call. -/
theorem claim_C4_staging_last_write_wins (st st1 st2 : PluginState)
    (sid t1 t2 : String) (l1 l2 : List Json)
    (_hf1 : find_entries_in_text st.store t1 = .ok l1) (_hne1 : l1 ≠ [])
    (hf2 : find_entries_in_text st.store t2 = .ok l2) (hne2 : l2 ≠ [])
    (h1 : on_any_message st sid t1 = .ok st1)
    (h2 : on_any_message st1 sid t2 = .ok st2) :
    mapGet st2.lore sid = some l2 ∧ st2.store = st.store := by
  have hst1 : st1.store = st.store := on_any_message_store h1
  rcases on_any_message_elim h2 with ⟨found2, hf2', rfl⟩
  rw [hst1, hf2] at hf2'
  have hfound2 : found2 = l2 := by
    simpa using hf2'.symm
  subst hfound2
  have hE : found2.isEmpty = false := by
    cases found2
    · exact absurd rfl hne2
    · rfl
  rw [hE]
  constructor
  · simp only [Bool.false_eq_true, if_false]
    exact mapGet_mapSet_self st1.lore sid found2
  · exact hst1

/-- C10: per-session frame property.  `on_any_message` for session `sid`
leaves the staged entry of every other session and the store untouched,
and `inject_worldbook_context` for session `sid` leaves the staged entry
of every other session and the store untouched. -/
theorem claim_C10_frame_other_sessions (st stA st2 st2' : PluginState)
    (sid sid' t sp out : String) (hne : sid' ≠ sid)
    (hmsg : on_any_message st sid t = .ok stA)
    (hinj : inject_worldbook_context st2 sid sp = .ok (st2', out)) :
    mapGet stA.lore sid' = mapGet st.lore sid' ∧ stA.store = st.store ∧
    mapGet st2'.lore sid' = mapGet st2.lore sid' ∧ st2'.store = st2.store := by
  refine ⟨?_, on_any_message_store hmsg, ?_, ?_⟩
  · rcases on_any_message_elim hmsg with ⟨found, -, rfl⟩
    cases hE : found.isEmpty with
    | true =>
        simp only [hE, if_true]
        exact mapGet_mapDel_ne st.lore sid sid' hne
    | false =>
        simp only [hE, Bool.false_eq_true, if_false]
        exact mapGet_mapSet_ne st.lore sid sid' found hne
  · cases hstage : mapGet st2.lore sid with
    | none =>
        rw [inject_none hstage] at hinj
        simp only [Except.ok.injEq, Prod.mk.injEq] at hinj
        rw [← hinj.1]
    | some l =>
        rcases inject_some_elim hstage hinj with ⟨sorted, block, -, -, rfl, -⟩
        exact mapGet_mapDel_ne st2.lore sid sid' hne
  · cases hstage : mapGet st2.lore sid with
    | none =>
        rw [inject_none hstage] at hinj
        simp only [Except.ok.injEq, Prod.mk.injEq] at hinj
        rw [← hinj.1]
    | some l =>
        rcases inject_some_elim hstage hinj with ⟨sorted, block, -, -, rfl, -⟩
        rfl

/-- C5: a generation request for a session with a staged entry gets its
system prompt set to the assembled knowledge block, a blank-line
separator, and then the exact previous system prompt, preserved
unchanged after the injected block. -/
theorem claim_C5_prompt_prepended (st : PluginState) (sid sp : String)
    (l ls : List Json) (block : String)
    (hstage : mapGet st.lore sid = some l)
    (hsort : sortLore l = .ok ls)
    (hfmt : assemblePrompt ls = .ok block) :
    inject_worldbook_context st sid sp
      = .ok ({ st with lore := mapDel st.lore sid },
             block ++ "\n" ++ sp) := by
  rw [inject_some_eq st sid sp l hstage, hsort]
  simp only [exceptOk_bind]
  rw [hfmt]
  simp only [exceptOk_bind]

/-- A minimal valid record with a keyword, used by concrete witnesses. -/
def kwEntry : Json := .obj [("keywords", .arr [.str "k"]),
  ("content", .str "c"), ("pet_name", .str "p")]

/-- A record without `skill_info`, staged directly in injection witnesses. -/
def plainEntry : Json := .obj [("content", .str "c"),
  ("pet_name", .str "p")]

/-- The prompt block assembled for `plainEntry` alone. -/
def plainBlock : String :=
  lorePromptHeader ++ "--- 背景知识 ---\n宠物：p\nc\n--- 背景知识结束 ---\n"

theorem claim_C1_witness :
    mapGet (PluginState.mk [] []).lore "s" = none ∧
    inject_worldbook_context (PluginState.mk [] []) "s" "X"
      = .ok (PluginState.mk [] [], "X") :=
  claim_C1_injection_exactly_once
    (PluginState.mk [] [("s", [plainEntry])]) (PluginState.mk [] [])
    "s" "SYS" "X" (plainBlock ++ "\n" ++ "SYS") (by rfl)

theorem claim_C4_witness :
    mapGet (PluginState.mk [("e", kwEntry)] [("s", [kwEntry])]).lore "s"
      = some [kwEntry] ∧
    (PluginState.mk [("e", kwEntry)] [("s", [kwEntry])]).store
      = (PluginState.mk [("e", kwEntry)] []).store :=
  claim_C4_staging_last_write_wins
    (PluginState.mk [("e", kwEntry)] [])
    (PluginState.mk [("e", kwEntry)] [("s", [kwEntry])])
    (PluginState.mk [("e", kwEntry)] [("s", [kwEntry])])
    "s" "ak" "kb" [kwEntry] [kwEntry]
    (by rfl) (by exact List.cons_ne_nil _ _)
    (by rfl) (by exact List.cons_ne_nil _ _)
    (by rfl) (by rfl)

theorem claim_C10_witness :
    mapGet (PluginState.mk [("e", kwEntry)]
        [("other", [kwEntry]), ("s", [kwEntry])]).lore "other"
      = mapGet (PluginState.mk [("e", kwEntry)] [("other", [kwEntry])]).lore
          "other" ∧
    (PluginState.mk [("e", kwEntry)]
        [("other", [kwEntry]), ("s", [kwEntry])]).store
      = (PluginState.mk [("e", kwEntry)] [("other", [kwEntry])]).store ∧
    mapGet (PluginState.mk [] [("other", [kwEntry])]).lore "other"
      = mapGet (PluginState.mk []
          [("other", [kwEntry]), ("s", [plainEntry])]).lore "other" ∧
    (PluginState.mk [] [("other", [kwEntry])]).store
      = (PluginState.mk [] [("other", [kwEntry]), ("s", [plainEntry])]).store :=
  claim_C10_frame_other_sessions
    (PluginState.mk [("e", kwEntry)] [("other", [kwEntry])])
    (PluginState.mk [("e", kwEntry)] [("other", [kwEntry]), ("s", [kwEntry])])
    (PluginState.mk [] [("other", [kwEntry]), ("s", [plainEntry])])
    (PluginState.mk [] [("other", [kwEntry])])
    "s" "other" "ak" "P" (plainBlock ++ "\n" ++ "P")
    (by decide) (by rfl) (by rfl)

/-- The example record of the specification: the `fire_blast` skill. -/
def fireBlast : Json := .obj [
  ("keywords", .arr [.str "火焰", .str "烈焰球"]),
  ("content", .str "高威力特殊火属性攻击技能"),
  ("pet_name", .str "小火龙"),
  ("skill_info", .obj [("power", .num 110), ("pp", .num 5),
    ("priority", .num 0), ("type", .str "火"), ("category", .str "特殊")])]

/-- The prompt block the plugin assembles for `fireBlast` alone. -/
def fireBlastBlock : String :=
  "[系统指令：请根据以下背景知识来理解和回复用户的提问。重要规则：一个宠物只能同时携带一种血脉效果和四个技能。]\n--- 背景知识 ---\n宠物：小火龙\n技能数据：威力: 110 | PP: 5 | 先手等级: 0 | 属性: 火 | 类型: 特殊\n\n高威力特殊火属性攻击技能\n--- 背景知识结束 ---\n"

theorem claim_C5_witness :
    inject_worldbook_context
      (PluginState.mk [("fire_blast", fireBlast)] [("s", [fireBlast])])
      "s" "原始系统提示"
      = .ok ({ PluginState.mk [("fire_blast", fireBlast)] [("s", [fireBlast])]
                 with
               lore := mapDel (PluginState.mk [("fire_blast", fireBlast)]
                 [("s", [fireBlast])]).lore "s" },
             fireBlastBlock ++ "\n" ++ "原始系统提示") :=
  claim_C5_prompt_prepended
    (PluginState.mk [("fire_blast", fireBlast)] [("s", [fireBlast])])
    "s" "原始系统提示" [fireBlast] [fireBlast] fireBlastBlock
    (by rfl) (by rfl) (by rfl)

theorem mem_insertDesc {x z : Nat × Json} :
    ∀ {l : List (Nat × Json)}, z ∈ insertDesc x l → z = x ∨ z ∈ l := by
  intro l
  induction l with
  | nil =>
      intro h
      simp only [insertDesc, List.mem_singleton] at h
      exact Or.inl h
  | cons y ys ih =>
      intro h
      unfold insertDesc at h
      by_cases hc : y.1 ≤ x.1
      · rw [if_pos hc] at h
        rcases List.mem_cons.mp h with rfl | h2
        · exact Or.inl rfl
        · exact Or.inr h2
      · rw [if_neg hc] at h
        rcases List.mem_cons.mp h with rfl | h2
        · exact Or.inr (List.mem_cons_self _ _)
        · rcases ih h2 with rfl | h3
          · exact Or.inl rfl
          · exact Or.inr (List.mem_cons_of_mem _ h3)

theorem insertDesc_sorted (x : Nat × Json) :
    ∀ {l : List (Nat × Json)}, l.Pairwise (fun a b => b.1 ≤ a.1) →
      (insertDesc x l).Pairwise (fun a b => b.1 ≤ a.1) := by
  intro l
  induction l with
  | nil =>
      intro _
      simp [insertDesc]
  | cons y ys ih =>
      intro h
      rcases List.pairwise_cons.mp h with ⟨hy, hys⟩
      unfold insertDesc
      by_cases hc : y.1 ≤ x.1
      · rw [if_pos hc]
        refine List.pairwise_cons.mpr ⟨?_, h⟩
        intro z hz
        rcases List.mem_cons.mp hz with rfl | hz2
        · exact hc
        · exact le_trans (hy z hz2) hc
      · rw [if_neg hc]
        refine List.pairwise_cons.mpr ⟨?_, ih hys⟩
        intro z hz
        rcases mem_insertDesc hz with rfl | hz2
        · exact Nat.le_of_lt (Nat.lt_of_not_le hc)
        · exact hy z hz2

theorem insertionSortDesc_sorted (l : List (Nat × Json)) :
    (insertionSortDesc l).Pairwise (fun a b => b.1 ≤ a.1) := by
  induction l with
  | nil => simp [insertionSortDesc]
  | cons x xs ih => exact insertDesc_sorted x ih

theorem filter_insertDesc (x : Nat × Json) (k : Nat) :
    ∀ (l : List (Nat × Json)),
      (insertDesc x l).filter (fun p => p.1 == k)
        = if x.1 == k then x :: l.filter (fun p => p.1 == k)
          else l.filter (fun p => p.1 == k) := by
  intro l
  induction l with
  | nil =>
      cases hx : (x.1 == k) <;> simp [insertDesc, List.filter, hx]
  | cons y ys ih =>
      unfold insertDesc
      by_cases hc : y.1 ≤ x.1
      · rw [if_pos hc]
        cases hx : (x.1 == k) <;> simp [List.filter_cons, hx]
      · rw [if_neg hc]
        have hxy : x.1 < y.1 := Nat.lt_of_not_le hc
        cases hx : (x.1 == k) with
        | true =>
            have hxk : x.1 = k := by simpa using hx
            have hyk : (y.1 == k) = false := by
              rw [beq_eq_false_iff_ne]
              intro hcon
              rw [hcon, ← hxk] at hxy
              exact Nat.lt_irrefl _ hxy
            simp [List.filter_cons, hyk, ih, hx]
        | false =>
            cases hy : (y.1 == k) <;>
              simp [List.filter_cons, hy, ih, hx]

theorem filter_insertionSortDesc (k : Nat) :
    ∀ (l : List (Nat × Json)),
      (insertionSortDesc l).filter (fun p => p.1 == k)
        = l.filter (fun p => p.1 == k) := by
  intro l
  induction l with
  | nil => rfl
  | cons x xs ih =>
      show (insertDesc x (insertionSortDesc xs)).filter _ = _
      rw [filter_insertDesc]
      cases hx : (x.1 == k) <;> simp [List.filter_cons, hx, ih]

theorem decorate_elim :
    ∀ {l : List Json} {dec : List (Nat × Json)}, decorate l = .ok dec →
      dec.map (fun p => p.2) = l ∧
      ∀ p ∈ dec, contentLenKey p.2 = .ok p.1 := by
  intro l
  induction l with
  | nil =>
      intro dec h
      simp only [decorate, Except.ok.injEq] at h
      subst h
      simp
  | cons e es ih =>
      intro dec h
      unfold decorate at h
      cases hk : contentLenKey e with
      | error u =>
          cases u
          rw [hk] at h
          simp at h
      | ok n =>
          rw [hk] at h
          simp only [exceptOk_bind] at h
          cases hd : decorate es with
          | error u =>
              cases u
              rw [hd] at h
              simp at h
          | ok rest =>
              rw [hd] at h
              simp only [exceptOk_bind, Except.ok.injEq] at h
              subst h
              rcases ih hd with ⟨hmap, hkeys⟩
              constructor
              · simp [hmap]
              · intro p hp
                rcases List.mem_cons.mp hp with rfl | hp2
                · exact hk
                · exact hkeys p hp2

/-- C2: before formatting, `inject_worldbook_context` sorts the staged
records by the character length of their `content` field, descending, and
the sort is stable: the decorated sequence `dec` pairs every staged
record with its content-length key, the sorted output is
non-increasing in those keys, and for every key value the sublist of
records with that key is preserved exactly (so equal-length records keep
their staged relative order). -/
theorem claim_C2_sort_desc_stable (l : List Json)
    (dec : List (Nat × Json)) (hdec : decorate l = .ok dec) :
    sortLore l = .ok ((insertionSortDesc dec).map (fun p => p.2)) ∧
    dec.map (fun p => p.2) = l ∧
    (∀ p ∈ dec, contentLenKey p.2 = .ok p.1) ∧
    (insertionSortDesc dec).Pairwise (fun a b => b.1 ≤ a.1) ∧
    ∀ k, (insertionSortDesc dec).filter (fun p => p.1 == k)
          = dec.filter (fun p => p.1 == k) := by
  rcases decorate_elim hdec with ⟨hmap, hkeys⟩
  refine ⟨?_, hmap, hkeys, insertionSortDesc_sorted dec, ?_⟩
  · unfold sortLore
    rw [hdec]
    simp only [exceptOk_bind]
  · intro k
    exact filter_insertionSortDesc k dec

/-- Record `A` of the sort-stability example: content of length 10. -/
def sortA : Json := .obj [("content", .str "aaaaaaaaaa"),
  ("pet_name", .str "A")]

/-- Record `B` of the sort-stability example: content of length 10. -/
def sortB : Json := .obj [("content", .str "bbbbbbbbbb"),
  ("pet_name", .str "B")]

/-- Record `C` of the sort-stability example: content of length 5. -/
def sortC : Json := .obj [("content", .str "ccccc"),
  ("pet_name", .str "C")]

theorem claim_C2_witness :
    decorate [sortA, sortB, sortC]
      = .ok [(10, sortA), (10, sortB), (5, sortC)] ∧
    sortLore [sortA, sortB, sortC] = .ok [sortA, sortB, sortC] ∧
    (sortLore [sortA, sortB, sortC]
      = .ok ((insertionSortDesc [(10, sortA), (10, sortB), (5, sortC)]).map
          (fun p => p.2)) ∧
    [(10, sortA), (10, sortB), (5, sortC)].map (fun p => p.2)
      = [sortA, sortB, sortC] ∧
    (∀ p ∈ [(10, sortA), (10, sortB), (5, sortC)],
      contentLenKey p.2 = .ok p.1) ∧
    (insertionSortDesc [(10, sortA), (10, sortB), (5, sortC)]).Pairwise
      (fun a b => b.1 ≤ a.1) ∧
    ∀ k, (insertionSortDesc
            [(10, sortA), (10, sortB), (5, sortC)]).filter
            (fun p => p.1 == k)
          = [(10, sortA), (10, sortB), (5, sortC)].filter
              (fun p => p.1 == k)) :=
  ⟨by rfl, by rfl,
   claim_C2_sort_desc_stable [sortA, sortB, sortC]
     [(10, sortA), (10, sortB), (5, sortC)] (by rfl)⟩

theorem entryMatch_elim {text : String} {e : Json} {b : Bool}
    (h : entryMatch text e = .ok b) :
    ∃ ks, keywordList e = .ok ks ∧ scanKeywords text ks = .ok b := by
  unfold entryMatch at h
  cases hk : keywordList e with
  | error u =>
      cases u
      rw [hk] at h
      simp at h
  | ok ks =>
      rw [hk] at h
      simp only [exceptOk_bind] at h
      exact ⟨ks, rfl, h⟩

theorem entryMatch_of_parts {text : String} {e : Json} {b : Bool}
    {ks : List Json} (hk : keywordList e = .ok ks)
    (hs : scanKeywords text ks = .ok b) :
    entryMatch text e = .ok b := by
  unfold entryMatch
  rw [hk]
  simpa using hs

theorem scanKeywords_ok_iff {text : String} :
    ∀ {ks : List Json} {b : Bool}, scanKeywords text ks = .ok b →
      (b = true ↔ ∃ s, Json.str s ∈ ks ∧ strIn s text = true) := by
  intro ks
  induction ks with
  | nil =>
      intro b h
      simp only [scanKeywords, Except.ok.injEq] at h
      subst h
      simp
  | cons k ks ih =>
      intro b h
      unfold scanKeywords at h
      cases hk : pyInStr k text with
      | error u =>
          cases u
          rw [hk] at h
          simp at h
      | ok bk =>
          rw [hk] at h
          simp only [exceptOk_bind] at h
          cases k with
          | str s =>
              have hbk : bk = strIn s text := by
                simpa [pyInStr] using hk.symm
              cases hsk : strIn s text with
              | true =>
                  rw [hbk, hsk] at h
                  simp only [if_true, Except.ok.injEq] at h
                  subst h
                  simp only [true_iff]
                  exact ⟨s, List.mem_cons_self _ _, hsk⟩
              | false =>
                  rw [hbk, hsk] at h
                  simp only [Bool.false_eq_true, if_false] at h
                  rw [ih h]
                  constructor
                  · rintro ⟨s', hmem, hin⟩
                    exact ⟨s', List.mem_cons_of_mem _ hmem, hin⟩
                  · rintro ⟨s', hmem, hin⟩
                    rcases List.mem_cons.mp hmem with heq | hmem2
                    · have hs' : s' = s := by
                        injection heq
                      rw [hs'] at hin
                      rw [hin] at hsk
                      exact absurd hsk (by simp)
                    · exact ⟨s', hmem2, hin⟩
          | null => simp [pyInStr] at hk
          | bool c => simp [pyInStr] at hk
          | num n => simp [pyInStr] at hk
          | arr xs => simp [pyInStr] at hk
          | obj kvs => simp [pyInStr] at hk

theorem findAux_cons_elim {text : String} {n : String} {e : Json}
    {rest : Store} {res : List Json}
    (h : findAux text ((n, e) :: rest) = .ok res) :
    ∃ b tail, entryMatch text e = .ok b ∧ findAux text rest = .ok tail ∧
      res = if b then e :: tail else tail := by
  unfold findAux at h
  cases hb : entryMatch text e with
  | error u =>
      cases u
      rw [hb] at h
      simp at h
  | ok b =>
      rw [hb] at h
      simp only [exceptOk_bind] at h
      cases ht : findAux text rest with
      | error u =>
          cases u
          rw [ht] at h
          simp at h
      | ok tail =>
          rw [ht] at h
          simp only [exceptOk_bind, Except.ok.injEq] at h
          exact ⟨b, tail, rfl, rfl, h.symm⟩

theorem findAux_ok_entryMatch {text : String} :
    ∀ {st : Store} {res : List Json}, findAux text st = .ok res →
      ∀ p ∈ st, ∃ b, entryMatch text p.2 = .ok b := by
  intro st
  induction st with
  | nil =>
      intro res _ p hp
      simp at hp
  | cons q rest ih =>
      intro res h p hp
      rcases q with ⟨n, e⟩
      rcases findAux_cons_elim h with ⟨b, tail, hb, ht, -⟩
      rcases List.mem_cons.mp hp with rfl | hp2
      · exact ⟨b, hb⟩
      · exact ih ht p hp2

theorem findAux_mem_imp {text : String} :
    ∀ {st : Store} {res : List Json}, findAux text st = .ok res →
      ∀ e ∈ res, entryMatch text e = .ok true := by
  intro st
  induction st with
  | nil =>
      intro res h e he
      simp only [findAux, Except.ok.injEq] at h
      subst h
      simp at he
  | cons q rest ih =>
      intro res h e he
      rcases q with ⟨n, e'⟩
      rcases findAux_cons_elim h with ⟨b, tail, hb, ht, rfl⟩
      cases b with
      | true =>
          rcases List.mem_cons.mp (by simpa using he) with rfl | he2
          · exact hb
          · exact ih ht e he2
      | false =>
          exact ih ht e (by simpa using he)

theorem findAux_sub {text : String} :
    ∀ {st : Store} {res : List Json}, findAux text st = .ok res →
      ∀ e ∈ res, ∃ n, (n, e) ∈ st := by
  intro st
  induction st with
  | nil =>
      intro res h e he
      simp only [findAux, Except.ok.injEq] at h
      subst h
      simp at he
  | cons q rest ih =>
      intro res h e he
      rcases q with ⟨n, e'⟩
      rcases findAux_cons_elim h with ⟨b, tail, hb, ht, rfl⟩
      cases b with
      | true =>
          rcases List.mem_cons.mp (by simpa using he) with rfl | he2
          · exact ⟨n, List.mem_cons_self _ _⟩
          · rcases ih ht e he2 with ⟨n', hn'⟩
            exact ⟨n', List.mem_cons_of_mem _ hn'⟩
      | false =>
          rcases ih ht e (by simpa using he) with ⟨n', hn'⟩
          exact ⟨n', List.mem_cons_of_mem _ hn'⟩

theorem findAux_mem_of_match {text : String} :
    ∀ {st : Store} {res : List Json}, findAux text st = .ok res →
      ∀ p ∈ st, entryMatch text p.2 = .ok true → p.2 ∈ res := by
  intro st
  induction st with
  | nil =>
      intro res _ p hp
      simp at hp
  | cons q rest ih =>
      intro res h p hp hm
      rcases q with ⟨n, e'⟩
      rcases findAux_cons_elim h with ⟨b, tail, hb, ht, rfl⟩
      rcases List.mem_cons.mp hp with rfl | hp2
      · rw [hm] at hb
        have hb' : b = true := by
          injection hb with h9
          exact h9.symm
        subst hb'
        exact List.mem_cons_self _ _
      · have htail : p.2 ∈ tail := ih ht p hp2 hm
        cases b with
        | true => exact List.mem_cons_of_mem _ htail
        | false => exact htail

theorem findAux_all_no_match {text : String} :
    ∀ {st : Store} {res : List Json}, findAux text st = .ok res →
      (∀ p ∈ st, entryMatch text p.2 = .ok false) → res = [] := by
  intro st
  induction st with
  | nil =>
      intro res h _
      simp only [findAux, Except.ok.injEq] at h
      exact h.symm
  | cons q rest ih =>
      intro res h hall
      rcases q with ⟨n, e'⟩
      rcases findAux_cons_elim h with ⟨b, tail, hb, ht, rfl⟩
      have hb' : entryMatch text e' = .ok false :=
        hall (n, e') (List.mem_cons_self _ _)
      rw [hb'] at hb
      have : b = false := by
        injection hb with h9
        exact h9.symm
      subst this
      exact ih ht (fun p hp => hall p (List.mem_cons_of_mem _ hp))

theorem findAux_once {text : String} :
    ∀ {s1 : Store} {n : String} {e : Json} {s2 : Store} {res : List Json},
      findAux text (s1 ++ (n, e) :: s2) = .ok res →
      e ∉ s1.map (fun p => p.2) → e ∉ s2.map (fun p => p.2) →
      entryMatch text e = .ok true →
      ∃ r1 r2, res = r1 ++ e :: r2 ∧ e ∉ r1 ∧ e ∉ r2 := by
  intro s1
  induction s1 with
  | nil =>
      intro n e s2 res h h1 h2 hm
      rw [List.nil_append] at h
      rcases findAux_cons_elim h with ⟨b, tail, hb, ht, rfl⟩
      rw [hm] at hb
      have hb' : b = true := by
        injection hb with h9
        exact h9.symm
      subst hb'
      refine ⟨[], tail, by simp, by simp, ?_⟩
      intro hcon
      rcases findAux_sub ht e hcon with ⟨n', hn'⟩
      exact h2 (List.mem_map.mpr ⟨(n', e), hn', rfl⟩)
  | cons q s1' ih =>
      intro n e s2 res h h1 h2 hm
      rcases q with ⟨n', e'⟩
      rw [List.cons_append] at h
      rcases findAux_cons_elim h with ⟨b, tail, hb, ht, rfl⟩
      have hne : e' ≠ e := by
        intro hcon
        exact h1 (by simp [hcon])
      have h1' : e ∉ s1'.map (fun p => p.2) := by
        intro hcon
        exact h1 (by simp [hcon])
      rcases ih ht h1' h2 hm with ⟨r1, r2, rfl, hr1, hr2⟩
      cases b with
      | true =>
          refine ⟨e' :: r1, r2, by simp, ?_, hr2⟩
          intro hcon
          rcases List.mem_cons.mp hcon with heq | hcon2
          · exact hne heq.symm
          · exact hr1 hcon2
      | false =>
          exact ⟨r1, r2, rfl, hr1, hr2⟩

theorem strIn_empty_left (t : String) : strIn "" t = true := by
  show containsSub [] t.data = true
  cases t.data with
  | nil => rfl
  | cons b bs => simp [containsSub, isPrefixOfB]

/-- A record whose keyword list contains the empty string. -/
def emptyKwEntry : Json := .obj [("keywords", .arr [.str ""]),
  ("content", .str "c"), ("pet_name", .str "p")]

/-- C3 counterexample: for the empty text `""` the claim's iff fails.  The
empty keyword `""` of `emptyKwEntry` occurs as a substring of `""`, yet
`find_entries_in_text` returns the empty list for the empty text (the
empty-text guard), so the record is not included even once. -/
theorem claim_C3_counterexample :
    strIn "" "" = true ∧
    find_entries_in_text [("e", emptyKwEntry)] "" = .ok [] :=
  ⟨rfl, rfl⟩

/-- C3 (amended with `text ≠ ""`): for a record `e` occurring exactly once
in the store and a non-empty text on which the scan succeeds, `e` appears
exactly once in the result iff one of its keywords occurs as a substring
of the text; and when no keyword of any stored record occurs in the text,
the result is empty. -/
theorem claim_C3_match_inclusion (store : Store) (text : String)
    (res : List Json) (n : String) (e : Json) (s1 s2 : Store)
    (kws : List Json)
    (h : find_entries_in_text store text = .ok res)
    (htext : text ≠ "")
    (hsplit : store = s1 ++ (n, e) :: s2)
    (hu1 : e ∉ s1.map (fun p => p.2)) (hu2 : e ∉ s2.map (fun p => p.2))
    (hkw : keywordList e = .ok kws) :
    ((∃ r1 r2, res = r1 ++ e :: r2 ∧ e ∉ r1 ∧ e ∉ r2)
      ↔ ∃ s, Json.str s ∈ kws ∧ strIn s text = true) ∧
    ((∀ p ∈ store, ∀ kws2, keywordList p.2 = .ok kws2 →
        ∀ s, Json.str s ∈ kws2 → strIn s text = false) → res = []) := by
  have hfa : findAux text store = .ok res := by
    unfold find_entries_in_text at h
    rw [if_neg htext] at h
    exact h
  subst hsplit
  constructor
  · constructor
    · rintro ⟨r1, r2, rfl, hr1, hr2⟩
      have hmem : e ∈ r1 ++ e :: r2 := by simp
      have hm := findAux_mem_imp hfa e hmem
      rcases entryMatch_elim hm with ⟨ks2, hk2, hs2⟩
      rw [hkw] at hk2
      have hks : kws = ks2 := by
        injection hk2
      subst hks
      exact (scanKeywords_ok_iff hs2).mp rfl
    · rintro ⟨s, hsmem, hsin⟩
      have hpmem : (n, e) ∈ s1 ++ (n, e) :: s2 := by simp
      rcases findAux_ok_entryMatch hfa (n, e) hpmem with ⟨b, hb⟩
      rcases entryMatch_elim hb with ⟨ks2, hk2, hs2⟩
      rw [hkw] at hk2
      have hks : kws = ks2 := by
        injection hk2
      subst hks
      have hbtrue : b = true := (scanKeywords_ok_iff hs2).mpr ⟨s, hsmem, hsin⟩
      subst hbtrue
      exact findAux_once hfa hu1 hu2 hb
  · intro hnone
    refine findAux_all_no_match hfa ?_
    intro p hp
    rcases findAux_ok_entryMatch hfa p hp with ⟨b, hb⟩
    rcases entryMatch_elim hb with ⟨ks2, hk2, hs2⟩
    have hbf : b = false := by
      cases b with
      | false => rfl
      | true =>
          rcases (scanKeywords_ok_iff hs2).mp rfl with ⟨s, hsm, hsi⟩
          have hfalse := hnone p hp ks2 hk2 s hsm
          rw [hsi] at hfalse
          exact absurd hfalse (by simp)
    subst hbf
    exact hb

theorem claim_C3_witness :
    find_entries_in_text [("e", kwEntry)] "ak" = .ok [kwEntry] ∧
    (((∃ r1 r2, [kwEntry] = r1 ++ kwEntry :: r2 ∧
          kwEntry ∉ r1 ∧ kwEntry ∉ r2)
      ↔ ∃ s, Json.str s ∈ [Json.str "k"] ∧ strIn s "ak" = true) ∧
    ((∀ p ∈ ([("e", kwEntry)] : Store), ∀ kws2,
        keywordList p.2 = .ok kws2 →
        ∀ s, Json.str s ∈ kws2 → strIn s "ak" = false) → [kwEntry] = [])) :=
  ⟨by rfl,
   claim_C3_match_inclusion [("e", kwEntry)] "ak" [kwEntry] "e" kwEntry
     [] [] [Json.str "k"] (by rfl) (by decide) rfl (by simp) (by simp)
     (by rfl)⟩

/-- C9: a loaded record whose keyword sequence contains the empty string
is included in every successful `find_entries_in_text` result for a
non-empty text (the empty string is a substring of every text); only the
empty-text guard keeps it out of the result for the empty message. -/
theorem claim_C9_empty_keyword_always_matches (store : Store)
    (text : String) (res : List Json) (n : String) (e : Json)
    (kws : List Json)
    (h : find_entries_in_text store text = .ok res) (htext : text ≠ "")
    (hmem : (n, e) ∈ store) (hkw : keywordList e = .ok kws)
    (hempty : Json.str "" ∈ kws) :
    e ∈ res ∧ find_entries_in_text store "" = .ok [] := by
  have hfa : findAux text store = .ok res := by
    unfold find_entries_in_text at h
    rw [if_neg htext] at h
    exact h
  rcases findAux_ok_entryMatch hfa (n, e) hmem with ⟨b, hb⟩
  rcases entryMatch_elim hb with ⟨ks2, hk2, hs2⟩
  rw [hkw] at hk2
  have hks : kws = ks2 := by
    injection hk2
  subst hks
  have hbtrue : b = true :=
    (scanKeywords_ok_iff hs2).mpr ⟨"", hempty, strIn_empty_left text⟩
  subst hbtrue
  refine ⟨findAux_mem_of_match hfa (n, e) hmem hb, ?_⟩
  simp [find_entries_in_text]

theorem claim_C9_witness :
    find_entries_in_text [("e", emptyKwEntry)] "x"
      = .ok [emptyKwEntry] ∧
    (emptyKwEntry ∈ [emptyKwEntry] ∧
     find_entries_in_text [("e", emptyKwEntry)] "" = .ok []) :=
  ⟨by rfl,
   claim_C9_empty_keyword_always_matches [("e", emptyKwEntry)] "x"
     [emptyKwEntry] "e" emptyKwEntry [Json.str ""] (by rfl) (by decide)
     (by simp) (by rfl) (by simp)⟩

/-- A record whose `keywords` array holds a number: accepted by the load
validation (all three fields are present) but a `TypeError` waiting to
happen in the keyword scan (`5 in text` with `text` a string). -/
def badKwEntry : Json := .obj [("keywords", .arr [.num 5]),
  ("content", .str "x"), ("pet_name", .str "y")]

/-- The file system holding only the `badKwEntry` record file. -/
def badKwFileSys : FileSys :=
  { dirExists := true, files := [("bad", .ok badKwEntry)] }

/-- C8 counterexample: a store reachable by loading a record file (all
three required fields present, but `keywords` contains the number 5)
makes `on_any_message` raise: `keyword in text` with a non-string keyword
is a `TypeError`, which propagates out of the handler. -/
theorem claim_C8_counterexample :
    load_worldbook badKwFileSys = [("bad", badKwEntry)] ∧
    on_any_message (PluginState.mk [("bad", badKwEntry)] []) "s" "abc"
      = .error () :=
  ⟨rfl, rfl⟩

/-- Whether a Python value iterates to strings only: a list of strings,
or a string (iterates to one-character strings), or a dict (iterates to
its keys, which are strings). -/
def iterValueAllStr : Json → Bool
  | .arr xs => xs.all (fun x => match x with
      | .str _ => true
      | _ => false)
  | .str _ => true
  | .obj _ => true
  | _ => false

/-- The well-formedness the keyword scan needs to be exception-free: the
record is a dict and its `keywords` value (defaulting to the empty list
when absent) iterates to strings only. -/
def keywordsWellFormed (e : Json) : Bool :=
  match e with
  | .obj kvs => iterValueAllStr ((jlookup kvs "keywords").getD (.arr []))
  | _ => false

theorem scanKeywords_ok_of_all_str {text : String} :
    ∀ {ks : List Json}, (∀ x ∈ ks, ∃ s, x = Json.str s) →
      ∃ b, scanKeywords text ks = .ok b := by
  intro ks
  induction ks with
  | nil =>
      intro _
      exact ⟨false, rfl⟩
  | cons k ks ih =>
      intro hall
      rcases hall k (List.mem_cons_self _ _) with ⟨s, rfl⟩
      rcases ih (fun x hx => hall x (List.mem_cons_of_mem _ hx)) with ⟨b, hb⟩
      cases hs : strIn s text with
      | true => exact ⟨true, by simp [scanKeywords, pyInStr, hs]⟩
      | false => exact ⟨b, by simp [scanKeywords, pyInStr, hs, hb]⟩

theorem pyIter_all_str {v : Json} {ks : List Json}
    (hwf : iterValueAllStr v = true) (hit : pyIter v = .ok ks) :
    ∀ x ∈ ks, ∃ s, x = Json.str s := by
  cases v with
  | arr xs =>
      have hks : ks = xs := by
        simpa [pyIter] using hit.symm
      subst hks
      intro x hx
      have hx' := List.all_eq_true.mp (by simpa [iterValueAllStr] using hwf) x hx
      cases x with
      | str s => exact ⟨s, rfl⟩
      | null => simp at hx'
      | bool c => simp at hx'
      | num n => simp at hx'
      | arr ys => simp at hx'
      | obj kvs => simp at hx'
  | str s =>
      have hks : ks = s.data.map (fun c => Json.str (String.singleton c)) := by
        simpa [pyIter] using hit.symm
      subst hks
      intro x hx
      rcases List.mem_map.mp hx with ⟨c, -, rfl⟩
      exact ⟨String.singleton c, rfl⟩
  | obj kvs =>
      have hks : ks = kvs.map (fun p => Json.str p.1) := by
        simpa [pyIter] using hit.symm
      subst hks
      intro x hx
      rcases List.mem_map.mp hx with ⟨p, -, rfl⟩
      exact ⟨p.1, rfl⟩
  | null => simp [pyIter] at hit
  | bool c => simp [pyIter] at hit
  | num n => simp [pyIter] at hit

theorem keywordList_ok_of_wf {e : Json}
    (hwf : keywordsWellFormed e = true) :
    ∃ ks, keywordList e = .ok ks ∧ ∀ x ∈ ks, ∃ s, x = Json.str s := by
  cases e with
  | obj kvs =>
      have hwf' : iterValueAllStr ((jlookup kvs "keywords").getD (.arr []))
          = true := by
        simpa [keywordsWellFormed] using hwf
      cases hit : pyIter ((jlookup kvs "keywords").getD (.arr [])) with
      | error u =>
          cases u
          exfalso
          cases hkv : (jlookup kvs "keywords").getD (.arr []) with
          | arr xs => rw [hkv] at hit; simp [pyIter] at hit
          | str s => rw [hkv] at hit; simp [pyIter] at hit
          | obj kvs2 => rw [hkv] at hit; simp [pyIter] at hit
          | null => rw [hkv] at hwf'; simp [iterValueAllStr] at hwf'
          | bool c => rw [hkv] at hwf'; simp [iterValueAllStr] at hwf'
          | num n => rw [hkv] at hwf'; simp [iterValueAllStr] at hwf'
      | ok ks =>
          refine ⟨ks, ?_, pyIter_all_str hwf' hit⟩
          unfold keywordList
          simp only [pyGetD, exceptOk_bind]
          exact hit
  | null => simp [keywordsWellFormed] at hwf
  | bool c => simp [keywordsWellFormed] at hwf
  | num n => simp [keywordsWellFormed] at hwf
  | str s => simp [keywordsWellFormed] at hwf
  | arr xs => simp [keywordsWellFormed] at hwf

theorem entryMatch_ok_of_wf {text : String} {e : Json}
    (hwf : keywordsWellFormed e = true) :
    ∃ b, entryMatch text e = .ok b := by
  rcases keywordList_ok_of_wf hwf with ⟨ks, hk, hall⟩
  rcases scanKeywords_ok_of_all_str hall with ⟨b, hb⟩
  exact ⟨b, entryMatch_of_parts hk hb⟩

theorem findAux_ok_of_wf {text : String} :
    ∀ {st : Store}, (∀ p ∈ st, keywordsWellFormed p.2 = true) →
      ∃ res, findAux text st = .ok res := by
  intro st
  induction st with
  | nil =>
      intro _
      exact ⟨[], rfl⟩
  | cons q rest ih =>
      intro hwf
      rcases q with ⟨n, e⟩
      rcases @entryMatch_ok_of_wf text e
          (hwf (n, e) (List.mem_cons_self _ _)) with ⟨b, hb⟩
      rcases ih (fun p hp => hwf p (List.mem_cons_of_mem _ hp)) with
        ⟨tail, ht⟩
      exact ⟨if b then e :: tail else tail, by simp [findAux, hb, ht]⟩

/-- C8 (amended): `on_any_message` never errors provided every stored
record is a dict whose `keywords` value (defaulting to the empty list)
iterates to strings only — e.g. is an array of strings.  Without that
proviso the claim fails: see the counterexample with `keywords`
containing the number 5. -/
theorem claim_C8_no_error_when_keywords_wellformed (st : PluginState)
    (sid text : String)
    (hwf : ∀ p ∈ st.store, keywordsWellFormed p.2 = true) :
    ∃ st2, on_any_message st sid text = .ok st2 := by
  have hfind : ∃ res, find_entries_in_text st.store text = .ok res := by
    by_cases ht : text = ""
    · exact ⟨[], by simp [find_entries_in_text, ht]⟩
    · rcases @findAux_ok_of_wf text st.store hwf with ⟨res, hres⟩
      exact ⟨res, by simp [find_entries_in_text, ht, hres]⟩
  rcases hfind with ⟨res, hres⟩
  refine ⟨{ st with lore :=
    (if res.isEmpty then mapDel st.lore sid
     else mapSet st.lore sid res) }, ?_⟩
  unfold on_any_message
  rw [hres]
  simp only [exceptOk_bind]
  cases hE : res.isEmpty <;> simp [hE]

theorem claim_C8_witness :
    (∀ p ∈ (PluginState.mk [("e", kwEntry)] []).store,
        keywordsWellFormed p.2 = true) ∧
    ∃ st2, on_any_message (PluginState.mk [("e", kwEntry)] []) "s" "ak"
      = .ok st2 :=
  ⟨by
     intro p hp
     simp only [List.mem_singleton] at hp
     subst hp
     rfl,
   claim_C8_no_error_when_keywords_wellformed
     (PluginState.mk [("e", kwEntry)] []) "s" "ak"
     (by
       intro p hp
       simp only [List.mem_singleton] at hp
       subst hp
       rfl)⟩

theorem mem_mapSet {α : Type} {q : String × α} {m : List (String × α)}
    {k : String} {v : α} (h : q ∈ mapSet m k v) : q ∈ m ∨ q = (k, v) := by
  unfold mapSet at h
  by_cases hany : m.any (fun p => p.1 == k) = true
  · rw [if_pos hany] at h
    rcases List.mem_map.mp h with ⟨p, hp, hq⟩
    by_cases hpk : (p.1 == k) = true
    · rw [if_pos hpk] at hq
      exact Or.inr hq.symm
    · rw [if_neg hpk] at hq
      subst hq
      exact Or.inl hp
  · rw [if_neg hany] at h
    rcases List.mem_append.mp h with h1 | h2
    · exact Or.inl h1
    · simp only [List.mem_singleton] at h2
      exact Or.inr h2

theorem load_fold_mem :
    ∀ (files : List (String × Except Unit Json)) (init : Store)
      (q : String × Json), q ∈ files.foldl loadStep init →
      q ∈ init ∨ ∃ f ∈ files, f.2 = .ok q.2 ∧
        recordAccepted q.2 = .ok true := by
  intro files
  induction files with
  | nil =>
      intro init q h
      exact Or.inl h
  | cons f fs ih =>
      intro init q h
      rw [List.foldl_cons] at h
      rcases ih (loadStep init f) q h with h1 | h2
      · cases hf2 : f.2 with
        | error u =>
            simp only [loadStep, hf2] at h1
            exact Or.inl h1
        | ok v =>
            simp only [loadStep, hf2] at h1
            cases hacc : recordAccepted v with
            | error u =>
                rw [hacc] at h1
                exact Or.inl h1
            | ok b =>
                rw [hacc] at h1
                cases b with
                | true =>
                    rcases mem_mapSet h1 with hm | hq
                    · exact Or.inl hm
                    · subst hq
                      refine Or.inr ⟨f, List.mem_cons_self _ _, ?_, ?_⟩
                      · exact hf2
                      · exact hacc
                | false => exact Or.inl h1
      · rcases h2 with ⟨g, hg, hok, hacc⟩
        exact Or.inr ⟨g, List.mem_cons_of_mem _ hg, hok, hacc⟩

theorem mem_availableFiles {fs : FileSys}
    {f : String × Except Unit Json} (h : f ∈ availableFiles fs) :
    f ∈ fs.files := by
  unfold availableFiles at h
  by_cases hd : fs.dirExists = true
  · rw [if_pos hd] at h
    exact h
  · rw [if_neg hd] at h
    simp at h

theorem recordAccepted_obj_true {kvs : List (String × Json)}
    (h : recordAccepted (.obj kvs) = .ok true) :
    kvs.any (fun q => q.1 == "keywords") = true ∧
    kvs.any (fun q => q.1 == "content") = true ∧
    kvs.any (fun q => q.1 == "pet_name") = true := by
  unfold recordAccepted at h
  simp only [pyHasMember, exceptOk_bind] at h
  cases h1 : kvs.any (fun q => q.1 == "keywords") with
  | false =>
      rw [h1] at h
      simp at h
  | true =>
      rw [h1] at h
      simp only [Bool.not_true, Bool.false_eq_true, if_false] at h
      cases h2 : kvs.any (fun q => q.1 == "content") with
      | false =>
          rw [h2] at h
          simp at h
      | true =>
          rw [h2] at h
          simp only [Bool.not_true, Bool.false_eq_true, if_false] at h
          cases h3 : kvs.any (fun q => q.1 == "pet_name") with
          | false =>
              rw [h3] at h
              simp at h
          | true => exact ⟨rfl, rfl, rfl⟩

/-- A record file whose parse is a JSON *array* holding the three
field-name strings: it has no fields at all, yet Python's `in` tests on
line 35 all succeed (list membership), so the load accepts it. -/
def listRecord : Json := .arr [.str "keywords", .str "content",
  .str "pet_name"]

/-- C6 counterexample: loading a file whose parse is `listRecord` — a
record with no fields, in particular missing `keywords`, `content` and
`pet_name` as fields — still inserts it into the store, because the
validation uses Python `in`, which on a list is membership, not
field presence. -/
theorem claim_C6_counterexample :
    load_worldbook { dirExists := true, files := [("weird", .ok listRecord)] }
      = [("weird", listRecord)] :=
  rfl

/-- C6 (amended): restricted to record files that parse to JSON objects,
the claim holds — a loaded record is an object carrying all three of
`keywords`, `content` and `pet_name` as keys, so an object record
missing any of them never enters the store and never appears in a
`find_entries_in_text` result.  (Non-object parses can slip through the
membership-based validation; see the counterexample.) -/
theorem claim_C6_object_records_validated (fs : FileSys)
    (hobj : ∀ p ∈ fs.files, ∀ v, p.2 = Except.ok v →
      ∃ kvs, v = Json.obj kvs) :
    (∀ n e, (n, e) ∈ load_worldbook fs → ∃ kvs, e = Json.obj kvs ∧
      kvs.any (fun q => q.1 == "keywords") = true ∧
      kvs.any (fun q => q.1 == "content") = true ∧
      kvs.any (fun q => q.1 == "pet_name") = true) ∧
    (∀ text res e, find_entries_in_text (load_worldbook fs) text = .ok res →
      e ∈ res → ∃ kvs, e = Json.obj kvs ∧
      kvs.any (fun q => q.1 == "keywords") = true ∧
      kvs.any (fun q => q.1 == "content") = true ∧
      kvs.any (fun q => q.1 == "pet_name") = true) := by
  have main : ∀ n e, (n, e) ∈ load_worldbook fs → ∃ kvs,
      e = Json.obj kvs ∧
      kvs.any (fun q => q.1 == "keywords") = true ∧
      kvs.any (fun q => q.1 == "content") = true ∧
      kvs.any (fun q => q.1 == "pet_name") = true := by
    intro n e hmem
    unfold load_worldbook at hmem
    rcases load_fold_mem (availableFiles fs) [] (n, e) hmem with h1 | h2
    · simp at h1
    · rcases h2 with ⟨f, hf, hok, hacc⟩
      rcases hobj f (mem_availableFiles hf) e hok with ⟨kvs, rfl⟩
      exact ⟨kvs, rfl, recordAccepted_obj_true hacc⟩
  refine ⟨main, ?_⟩
  intro text res e hfind hres
  by_cases ht : text = ""
  · unfold find_entries_in_text at hfind
    rw [if_pos ht] at hfind
    simp only [Except.ok.injEq] at hfind
    rw [← hfind] at hres
    simp at hres
  · unfold find_entries_in_text at hfind
    rw [if_neg ht] at hfind
    rcases findAux_sub hfind e hres with ⟨n, hn⟩
    exact main n e hn

theorem claim_C6_witness :
    (∀ p ∈ (FileSys.mk true
        [("good", .ok (Json.obj [("keywords", Json.arr [Json.str "k"]),
            ("content", Json.str "c"), ("pet_name", Json.str "p")])),
         ("bad", .ok (Json.obj [("keywords", Json.arr [Json.str "k"])]))]
        ).files,
      ∀ v, p.2 = Except.ok v → ∃ kvs, v = Json.obj kvs) ∧
    load_worldbook (FileSys.mk true
        [("good", .ok (Json.obj [("keywords", Json.arr [Json.str "k"]),
            ("content", Json.str "c"), ("pet_name", Json.str "p")])),
         ("bad", .ok (Json.obj [("keywords", Json.arr [Json.str "k"])]))])
      = [("good", Json.obj [("keywords", Json.arr [Json.str "k"]),
          ("content", Json.str "c"), ("pet_name", Json.str "p")])] ∧
    (∀ n e, (n, e) ∈ load_worldbook (FileSys.mk true
        [("good", .ok (Json.obj [("keywords", Json.arr [Json.str "k"]),
            ("content", Json.str "c"), ("pet_name", Json.str "p")])),
         ("bad", .ok (Json.obj [("keywords", Json.arr [Json.str "k"])]))])
      → ∃ kvs, e = Json.obj kvs ∧
        kvs.any (fun q => q.1 == "keywords") = true ∧
        kvs.any (fun q => q.1 == "content") = true ∧
        kvs.any (fun q => q.1 == "pet_name") = true) :=
  ⟨by
     intro p hp v hv
     rcases List.mem_cons.mp hp with rfl | hp2
     · have h9 : Except.ok (Json.obj [("keywords", Json.arr [Json.str "k"]),
           ("content", Json.str "c"), ("pet_name", Json.str "p")])
           = Except.ok v := hv
       injection h9 with h10
       exact ⟨_, h10.symm⟩
     · rcases List.mem_cons.mp hp2 with rfl | hp3
       · have h9 : Except.ok (Json.obj [("keywords", Json.arr [Json.str "k"])])
             = Except.ok v := hv
         injection h9 with h10
         exact ⟨_, h10.symm⟩
       · simp at hp3,
   by rfl,
   (claim_C6_object_records_validated _
     (by
       intro p hp v hv
       rcases List.mem_cons.mp hp with rfl | hp2
       · have h9 : Except.ok (Json.obj [("keywords", Json.arr [Json.str "k"]),
             ("content", Json.str "c"), ("pet_name", Json.str "p")])
             = Except.ok v := hv
         injection h9 with h10
         exact ⟨_, h10.symm⟩
       · rcases List.mem_cons.mp hp2 with rfl | hp3
         · have h9 : Except.ok (Json.obj
               [("keywords", Json.arr [Json.str "k"])]) = Except.ok v := hv
           injection h9 with h10
           exact ⟨_, h10.symm⟩
         · simp at hp3)).1⟩

/-- C7 counterexample: the administrative reload command does not create
the data directory — reloading with the directory absent leaves it
absent (only the constructor performs `mkdir`). -/
theorem claim_C7_counterexample :
    (reload_worldbook_cmd (FileSys.mk false [])).1.dirExists = false :=
  rfl

/-- C7 (amended): only construction (`__init__`) ensures the data
directory exists, creating it before loading; the reload command calls
`_load_worldbook` without touching the file system, and a reload with
the directory absent simply discovers no files and produces an empty
store rather than creating the directory or erroring. -/
theorem claim_C7_mkdir_only_on_construction (fs : FileSys) :
    (mkWorldbookManager fs).1.dirExists = true ∧
    (reload_worldbook_cmd fs).1 = fs ∧
    (fs.dirExists = false → (reload_worldbook_cmd fs).2 = []) := by
  refine ⟨rfl, rfl, ?_⟩
  intro h
  show load_worldbook fs = []
  unfold load_worldbook availableFiles
  rw [h]
  rfl

theorem claim_C7_witness :
    (mkWorldbookManager (FileSys.mk false [])).1.dirExists = true ∧
    (reload_worldbook_cmd (FileSys.mk false [])).1 = FileSys.mk false [] ∧
    ((FileSys.mk false []).dirExists = false →
      (reload_worldbook_cmd (FileSys.mk false [])).2 = []) :=
  claim_C7_mkdir_only_on_construction (FileSys.mk false [])
